import Mathlib

/-!
Verification of the project-tracking store and validator of
`drag-and-drop-using-typescript` (src/app.ts), shallowly embedded in Lean.

Modelling conventions:
* JS strings are `List Char`; JS numbers are restricted to the integral
  fragment and embedded as `Int` (all numbers the program manipulates in the
  verified logic are integral).
* `Math.random().toString()`, the external random source used to generate
  project ids, is passed to `addProject` as an explicit argument `newId`.
* Listener callbacks are opaque identities of an arbitrary type `α`; an
  operation's observable notification behaviour is returned as the list of
  (listener, delivered snapshot) events, in invocation order.
-/

namespace DragDrop

/-- The `Status` enum from src/app.ts: `enum Status { Active, Finished }`. -/
inductive Status where
  | Active : Status
  | Finished : Status
deriving DecidableEq, Repr

/-- A JS `string | number` value, as used by the `Validatable` interface. -/
inductive JsValue where
  | str : List Char → JsValue
  | num : Int → JsValue
deriving DecidableEq, Repr

/-- Whitespace characters stripped by JS `String.prototype.trim`
(space, tab, line terminators, vertical tab, form feed, NBSP, BOM). -/
def isJsWhitespace (c : Char) : Bool :=
  c = ' ' || c = '\t' || c = '\n' || c = '\r' ||
  c = Char.ofNat 11 || c = Char.ofNat 12 ||
  c = Char.ofNat 160 || c = Char.ofNat 65279

/-- Decimal digit accumulation for rendering a natural number, with explicit
fuel (the fuel `n + 1` always suffices). -/
def natToDigitsCore : Nat → Nat → List Char → List Char
  | 0, _, acc => acc
  | fuel + 1, n, acc =>
    if n < 10 then Nat.digitChar n :: acc
    else natToDigitsCore fuel (n / 10) (Nat.digitChar (n % 10) :: acc)

/-- Decimal rendering of a natural number. -/
def natToString (n : Nat) : List Char :=
  natToDigitsCore (n + 1) n []

/-- JS `Number.prototype.toString` on an integral number: decimal digits with
an optional leading minus sign. -/
def numToString : Int → List Char
  | Int.ofNat n => natToString n
  | Int.negSucc n => '-' :: natToString (n + 1)

/-- JS `value.toString()` on a `string | number` value. -/
def JsValue.toStr : JsValue → List Char
  | .str s => s
  | .num n => numToString n

/-- JS `String.prototype.trim`: strip leading and trailing whitespace. -/
def trimList (l : List Char) : List Char :=
  ((l.dropWhile isJsWhitespace).reverse.dropWhile isJsWhitespace).reverse

/-- The `Validatable` interface from src/app.ts. -/
structure Validatable where
  value : JsValue
  required : Bool
  minLength : Option Int
  maxLength : Option Int
  min : Option Int
  max : Option Int
deriving DecidableEq, Repr

/-- The `validate` function from src/app.ts: starts with `isValid = true` and
conjoins each applicable check in order (required; minLength/maxLength only
when the value is a string; min/max only when the value is a number). -/
def validate (validateInput : Validatable) : Bool :=
  let v0 := true
  let v1 :=
    if validateInput.required then
      v0 && decide ((trimList validateInput.value.toStr).length ≠ 0)
    else v0
  let v2 :=
    match validateInput.minLength, validateInput.value with
    | some m, .str s => v1 && decide ((s.length : Int) ≥ m)
    | _, _ => v1
  let v3 :=
    match validateInput.maxLength, validateInput.value with
    | some m, .str s => v2 && decide ((s.length : Int) ≤ m)
    | _, _ => v2
  let v4 :=
    match validateInput.min, validateInput.value with
    | some m, .num n => v3 && decide (n ≥ m)
    | _, _ => v3
  let v5 :=
    match validateInput.max, validateInput.value with
    | some m, .num n => v4 && decide (n ≤ m)
    | _, _ => v4
  v5

/-- The `Project` class from src/app.ts. -/
structure Project where
  id : List Char
  title : List Char
  description : List Char
  people : Int
  status : Status
deriving DecidableEq, Repr

/-- A notification event: a listener together with the snapshot delivered
to it. -/
abbrev Event (α : Type) := α × List Project

/-- The state of the `ProjectState` store (class `State` contributes the
listener list, class `ProjectState` the project array). Listeners are opaque
identities of type `α`. -/
structure ProjectState (α : Type) where
  listeners : List α
  projects : List Project
deriving DecidableEq, Repr

/-- `State.addListener` from src/app.ts: pushes the listener onto the
listener array. The second component is the list of notifications performed
by the call, which is empty (the method notifies nobody). -/
def addListener {α : Type} (st : ProjectState α) (listenerFunc : α) :
    ProjectState α × List (Event α) :=
  ({ st with listeners := st.listeners ++ [listenerFunc] }, [])

/-- `ProjectState.addProject` from src/app.ts. `newId` is the value produced
by `Math.random().toString()`, made an explicit argument because the random
source is external to the program. The call appends the new Active project
and then invokes each registered listener, in order, with a copy of the full
collection. -/
def addProject {α : Type} (st : ProjectState α) (newId title description : List Char)
    (numOfPeople : Int) : ProjectState α × List (Event α) :=
  let newProjects : Project := ⟨newId, title, description, numOfPeople, Status.Active⟩
  let projects := st.projects ++ [newProjects]
  ({ st with projects := projects }, st.listeners.map (fun l => (l, projects)))

/-- The effect of `project.status = newStatus` performed through the object
reference returned by `Array.prototype.find`: the first project whose id
matches has its status field overwritten, every other element is untouched. -/
def setStatusFirst : List Project → List Char → Status → List Project
  | [], _, _ => []
  | p :: ps, projectId, newStatus =>
    if p.id == projectId then { p with status := newStatus } :: ps
    else p :: setStatusFirst ps projectId newStatus

/-- `ProjectState.updateListeners` from src/app.ts: invoke every registered
listener, in order, with a copy of the current collection. -/
def updateListeners {α : Type} (st : ProjectState α) : List (Event α) :=
  st.listeners.map (fun l => (l, st.projects))

/-- `ProjectState.moveProject` from src/app.ts: look up the project by id
(first match of a linear scan); if found and its status differs from
`newStatus`, mutate the status in place and notify all listeners; otherwise
do nothing. -/
def moveProject {α : Type} (st : ProjectState α) (projectId : List Char)
    (newStatus : Status) : ProjectState α × List (Event α) :=
  match st.projects.find? (fun project => project.id == projectId) with
  | none => (st, [])
  | some project =>
    if project.status ≠ newStatus then
      let st' : ProjectState α :=
        { st with projects := setStatusFirst st.projects projectId newStatus }
      (st', updateListeners st')
    else (st, [])

/-- A sequence of `addProject` calls: each entry carries the generated id and
the title/description/people arguments of one call. -/
def addAll {α : Type} (st : ProjectState α) :
    List (List Char × List Char × List Char × Int) → ProjectState α
  | [] => st
  | c :: cs => addAll (addProject st c.1 c.2.1 c.2.2.1 c.2.2.2).1 cs

/-! ### Array aliasing model

JS arrays are mutable heap objects; `this.projects.slice()` allocates a fresh
array. To state snapshot isolation we make the aliasing explicit: a memory is
a list of array cells, the store's backing collection lives in one cell, and
each loop iteration of the notification loop allocates a new cell holding a
copy of the backing collection and delivers that cell's reference. -/

/-- A heap of JS arrays of projects, addressed by allocation index. -/
structure Mem where
  cells : List (List Project)
deriving DecidableEq, Repr

/-- Allocate a fresh array cell holding `v`; returns the new memory and the
reference to the cell. -/
def Mem.alloc (m : Mem) (v : List Project) : Mem × Nat :=
  (⟨m.cells ++ [v]⟩, m.cells.length)

/-- Read the array stored in cell `r`. -/
def Mem.read (m : Mem) (r : Nat) : List Project :=
  m.cells.getD r []

/-- Overwrite cell `r` with `v` (a listener mutating an array it was given:
adding, removing or replacing elements, modelled as replacing the cell's
contents wholesale). -/
def Mem.write (m : Mem) (r : Nat) (v : List Project) : Mem :=
  ⟨m.cells.set r v⟩

/-- The notification loop
`for (const listener of this.listeners) { listener(this.projects.slice()) }`
shared by `addProject` and `updateListeners`, with aliasing explicit:
`projectsRef` is the cell holding `this.projects`; each iteration allocates a
fresh copy of that cell's contents (`slice()`) and delivers the copy's
reference to the listener. Returns the final memory and the delivered
(listener, snapshot reference) pairs in invocation order. -/
def notifyLoop {α : Type} (m : Mem) (projectsRef : Nat) :
    List α → Mem × List (α × Nat)
  | [] => (m, [])
  | l :: ls =>
    let a := m.alloc (m.read projectsRef)
    let rest := notifyLoop a.1 projectsRef ls
    (rest.1, (l, a.2) :: rest.2)

/-! ### Presentation caller (`ProjectInput`) -/

/-- JS `ToNumber` on a trimmed input string, restricted to the integral
fragment of the model: the empty string converts to 0, an optional sign
followed by decimal digits converts to the signed value, and `none` stands
for NaN (any other input). -/
def parseDecimalDigits : List Char → Option Nat
  | [] => none
  | cs =>
    cs.foldl
      (fun acc c =>
        match acc with
        | none => none
        | some n => if c.isDigit then some (n * 10 + (c.toNat - '0'.toNat)) else none)
      (some 0)

/-- JS unary plus `+peopleValue` applied to an input string (integral
fragment; `none` is NaN). -/
def jsToNumber (s : List Char) : Option Int :=
  let t := trimList s
  match t with
  | [] => some 0
  | '-' :: rest => (parseDecimalDigits rest).map (fun n => -(n : Int))
  | '+' :: rest => (parseDecimalDigits rest).map (fun n => (n : Int))
  | _ => (parseDecimalDigits t).map (fun n => (n : Int))

/-- Outcome of `ProjectInput.gatherUserInputVaues`: whether the alert fired,
and the value the function returned (`none` would be the `void` return; the
function as written always returns the tuple). -/
structure GatherOutcome where
  alerted : Bool
  ret : Option (List Char × List Char × Option Int)
deriving DecidableEq, Repr

/-- `ProjectInput.gatherUserInputVaues` from src/app.ts, as a function of the
three raw input-field strings. It validates title (required), description
(required, minLength 5) and people (required, min 1, max 10 — note the value
handed to the validator is the raw input *string*), alerts when any check
fails, and then returns `[titleValue, descriptionValue, +peopleValue]`
unconditionally: the invalid branch has no early return. -/
def gatherUserInputVaues (titleValue descriptionValue peopleValue : List Char) :
    GatherOutcome :=
  let titleValidator : Validatable := ⟨.str titleValue, true, none, none, none, none⟩
  let descriptionValidator : Validatable :=
    ⟨.str descriptionValue, true, some 5, none, none, none⟩
  let peopleValidator : Validatable := ⟨.str peopleValue, true, none, none, some 1, some 10⟩
  let alerted :=
    !validate titleValidator || !validate descriptionValidator || !validate peopleValidator
  ⟨alerted, some (titleValue, descriptionValue, jsToNumber peopleValue)⟩

/-- Outcome of `ProjectInput.submitHandler`: whether the alert fired during
input gathering, and the argument triple of the `addProject` call if one was
made (`none` when `addProject` was not invoked). -/
structure SubmitOutcome where
  alerted : Bool
  addCalled : Option (List Char × List Char × Option Int)
deriving DecidableEq, Repr

/-- `ProjectInput.submitHandler` from src/app.ts: gather the user input, and
if the returned value is an array (`Array.isArray(userInput)`), call
`projectState.addProject(...userInput)`. -/
def submitHandler (titleValue descriptionValue peopleValue : List Char) :
    SubmitOutcome :=
  let userInput := gatherUserInputVaues titleValue descriptionValue peopleValue
  match userInput.ret with
  | some args => ⟨userInput.alerted, some args⟩
  | none => ⟨userInput.alerted, none⟩

/-! ### Supporting lemmas: decimal rendering and trimming -/

lemma natToDigitsCore_ne_nil_of_acc (fuel n : Nat) (acc : List Char) (h : acc ≠ []) :
    natToDigitsCore fuel n acc ≠ [] := by
  induction fuel generalizing n acc with
  | zero => simpa [natToDigitsCore] using h
  | succ fuel ih =>
    simp only [natToDigitsCore]
    by_cases hn : n < 10
    · simp [hn]
    · simpa [hn] using ih (n / 10) (Nat.digitChar (n % 10) :: acc) (by simp)

lemma natToDigitsCore_succ_ne_nil (fuel n : Nat) (acc : List Char) :
    natToDigitsCore (fuel + 1) n acc ≠ [] := by
  simp only [natToDigitsCore]
  by_cases hn : n < 10
  · simp [hn]
  · simpa [hn] using
      natToDigitsCore_ne_nil_of_acc fuel (n / 10) (Nat.digitChar (n % 10) :: acc) (by simp)

lemma mem_natToDigitsCore (fuel n : Nat) (acc : List Char) (c : Char)
    (hc : c ∈ natToDigitsCore fuel n acc) :
    (∃ k, k < 10 ∧ c = Nat.digitChar k) ∨ c ∈ acc := by
  induction fuel generalizing n acc with
  | zero => exact Or.inr (by simpa [natToDigitsCore] using hc)
  | succ fuel ih =>
    simp only [natToDigitsCore] at hc
    by_cases hn : n < 10
    · simp only [hn, if_true, List.mem_cons] at hc
      rcases hc with hc | hc
      · exact Or.inl ⟨n, hn, hc⟩
      · exact Or.inr hc
    · simp only [hn, if_false] at hc
      rcases ih (n / 10) (Nat.digitChar (n % 10) :: acc) hc with h | h
      · exact Or.inl h
      · rcases List.mem_cons.mp h with h | h
        · exact Or.inl ⟨n % 10, Nat.mod_lt _ (by decide), h⟩
        · exact Or.inr h

lemma digitChar_not_ws (k : Nat) (hk : k < 10) :
    isJsWhitespace (Nat.digitChar k) = false := by
  interval_cases k <;> decide

lemma numToString_not_ws (n : Int) (c : Char) (hc : c ∈ numToString n) :
    isJsWhitespace c = false := by
  have key : ∀ m : Nat, c ∈ natToString m → isJsWhitespace c = false := by
    intro m hm
    rcases mem_natToDigitsCore (m + 1) m [] c hm with ⟨k, hk, rfl⟩ | h
    · exact digitChar_not_ws k hk
    · simp at h
  cases n with
  | ofNat m => exact key m hc
  | negSucc m =>
    rcases List.mem_cons.mp hc with rfl | h
    · decide
    · exact key (m + 1) h

lemma numToString_ne_nil (n : Int) : numToString n ≠ [] := by
  cases n with
  | ofNat m => exact natToDigitsCore_succ_ne_nil m m []
  | negSucc m => simp [numToString]

lemma dropWhile_eq_self_of_not (p : Char → Bool) (l : List Char)
    (h : ∀ c ∈ l, p c = false) : l.dropWhile p = l := by
  cases l with
  | nil => rfl
  | cons c cs => simp [List.dropWhile, h c (List.mem_cons_self c cs)]

lemma trimList_eq_self (l : List Char) (h : ∀ c ∈ l, isJsWhitespace c = false) :
    trimList l = l := by
  unfold trimList
  rw [dropWhile_eq_self_of_not _ _ h,
    dropWhile_eq_self_of_not _ _ (fun c hc => h c (List.mem_reverse.mp hc)),
    List.reverse_reverse]

lemma trim_numToString_length_ne_zero (n : Int) :
    (trimList (numToString n)).length ≠ 0 := by
  rw [trimList_eq_self _ (numToString_not_ws n)]
  simpa [List.length_eq_zero] using numToString_ne_nil n

/-! ### Supporting lemmas: the store -/

lemma setStatusFirst_of_find? (l : List Project) (pid : List Char) (ns : Status)
    (p : Project) (h : l.find? (fun q => q.id == pid) = some p) :
    ∃ i, i < l.length ∧ l[i]? = some p ∧
      setStatusFirst l pid ns = l.set i { p with status := ns } := by
  induction l with
  | nil => simp [List.find?] at h
  | cons q qs ih =>
    by_cases hq : (q.id == pid) = true
    · have hqp : q = p := by
        have := List.find?_cons_of_pos (p := fun r => r.id == pid) qs hq
        rw [this] at h
        exact Option.some.inj h
      subst hqp
      exact ⟨0, by simp, by simp, by simp [setStatusFirst, hq]⟩
    · rw [List.find?_cons_of_neg qs (by simpa using hq)] at h
      obtain ⟨i, hi, hget, hset⟩ := ih h
      refine ⟨i + 1, by simpa using Nat.succ_lt_succ hi, by simpa using hget, ?_⟩
      simp [setStatusFirst, hq, hset]

lemma addAll_ids {α : Type} (st : ProjectState α)
    (cs : List (List Char × List Char × List Char × Int)) :
    (addAll st cs).projects.map Project.id =
      st.projects.map Project.id ++ cs.map (fun c => c.1) := by
  induction cs generalizing st with
  | nil => simp [addAll]
  | cons c cs ih => simp [addAll, ih, addProject]

/-! ### Supporting lemmas: the aliasing model -/

lemma Mem.alloc_length (m : Mem) (v : List Project) :
    (m.alloc v).1.cells.length = m.cells.length + 1 := by
  simp [Mem.alloc]

lemma Mem.read_alloc_lt (m : Mem) (v : List Project) (q : Nat)
    (h : q < m.cells.length) : (m.alloc v).1.read q = m.read q := by
  simp only [Mem.alloc, Mem.read, List.getD, List.get?_eq_getElem?]
  rw [List.getElem?_append_left h]

lemma Mem.read_alloc_new (m : Mem) (v : List Project) :
    (m.alloc v).1.read (m.alloc v).2 = v := by
  simp only [Mem.alloc, Mem.read, List.getD, List.get?_eq_getElem?]
  rw [List.getElem?_concat_length]
  rfl

lemma Mem.read_write_ne (m : Mem) (r : Nat) (v : List Project) (q : Nat)
    (h : q ≠ r) : (m.write r v).read q = m.read q := by
  simp only [Mem.write, Mem.read, List.getD, List.get?_eq_getElem?]
  rw [List.getElem?_set_ne (fun hrq => h hrq.symm)]

/-- Combined induction invariant of the notification loop: it grows memory by
one cell per listener, preserves every pre-existing cell, delivers to exactly
the listeners of the list in order, and every delivered reference is a fresh
cell whose final contents are the backing collection as read at entry. -/
lemma notifyLoop_spec {α : Type} (projectsRef : Nat) (ls : List α) :
    ∀ m : Mem, projectsRef < m.cells.length →
      (notifyLoop m projectsRef ls).1.cells.length = m.cells.length + ls.length ∧
      (∀ q, q < m.cells.length → (notifyLoop m projectsRef ls).1.read q = m.read q) ∧
      (notifyLoop m projectsRef ls).2.map Prod.fst = ls ∧
      (∀ ev ∈ (notifyLoop m projectsRef ls).2,
        m.cells.length ≤ ev.2 ∧
        (notifyLoop m projectsRef ls).1.read ev.2 = m.read projectsRef) := by
  induction ls with
  | nil =>
    intro m _
    simp [notifyLoop]
  | cons l ls ih =>
    intro m hm
    have hm1len : (m.alloc (m.read projectsRef)).1.cells.length = m.cells.length + 1 :=
      Mem.alloc_length m _
    have hm1 : projectsRef < (m.alloc (m.read projectsRef)).1.cells.length := by
      omega
    obtain ⟨ihlen, ihpres, ihfst, ihev⟩ := ih (m.alloc (m.read projectsRef)).1 hm1
    refine ⟨?_, ?_, ?_, ?_⟩
    · simp only [notifyLoop, ihlen, hm1len, List.length_cons]
      omega
    · intro q hq
      simp only [notifyLoop]
      rw [ihpres q (by omega), Mem.read_alloc_lt m _ q hq]
    · simp only [notifyLoop, List.map_cons, ihfst]
    · intro ev hev
      simp only [notifyLoop, List.mem_cons] at hev
      rcases hev with rfl | hev
      · refine ⟨Nat.le_refl _, ?_⟩
        simp only [notifyLoop]
        have hsnap : (m.alloc (m.read projectsRef)).2 < (m.alloc (m.read projectsRef)).1.cells.length := by
          simp [Mem.alloc]
        rw [ihpres _ hsnap, Mem.read_alloc_new]
      · obtain ⟨hle, hread⟩ := ihev ev hev
        refine ⟨by omega, ?_⟩
        simp only [notifyLoop]
        rw [hread, Mem.read_alloc_lt m _ projectsRef hm]

/-! ### Specification-side decomposition of `validate` (for the conjunction
claim): one definition per check, following the spec's wording. -/

/-- Spec wording: "if `required`, fail unless the trimmed string form of the
value has non-zero length". -/
def requiredCheck (vi : Validatable) : Bool :=
  if vi.required then decide ((trimList vi.value.toStr).length ≠ 0) else true

/-- Spec wording: "if `minLength` set and value is textual, compare string
length"; skipped otherwise. -/
def minLengthCheck (vi : Validatable) : Bool :=
  match vi.minLength, vi.value with
  | some m, .str s => decide ((s.length : Int) ≥ m)
  | _, _ => true

/-- Spec wording: "if `maxLength` set and value is textual, compare string
length"; skipped otherwise. -/
def maxLengthCheck (vi : Validatable) : Bool :=
  match vi.maxLength, vi.value with
  | some m, .str s => decide ((s.length : Int) ≤ m)
  | _, _ => true

/-- Spec wording: "if `min` set and value is numeric, compare numeric
value"; skipped otherwise. -/
def minCheck (vi : Validatable) : Bool :=
  match vi.min, vi.value with
  | some m, .num n => decide (n ≥ m)
  | _, _ => true

/-- Spec wording: "if `max` set and value is numeric, compare numeric
value"; skipped otherwise. -/
def maxCheck (vi : Validatable) : Bool :=
  match vi.max, vi.value with
  | some m, .num n => decide (n ≤ m)
  | _, _ => true

/-! ### Claim theorems -/

/-- C1: for every store state and argument triple, `addProject` increases the
project count by exactly 1, appends a Project with exactly those
title/description/people values and status Active to the end of the ordered
collection, and invokes every registered listener, in registration order,
with the full resulting collection. -/
theorem addProject_appends_active_and_notifies {α : Type} (st : ProjectState α)
    (newId title description : List Char) (numOfPeople : Int) :
    (addProject st newId title description numOfPeople).1.projects.length
        = st.projects.length + 1 ∧
    (addProject st newId title description numOfPeople).1.projects
        = st.projects ++ [⟨newId, title, description, numOfPeople, Status.Active⟩] ∧
    (addProject st newId title description numOfPeople).2
        = st.listeners.map
            (fun l => (l, (addProject st newId title description numOfPeople).1.projects)) := by
  refine ⟨by simp [addProject], by simp [addProject], by simp [addProject]⟩

/-- C3: `moveProject` with an id not present in the store, or with the
project's current status, leaves the store completely unchanged and invokes
no listener: a silent no-op, not an error. -/
theorem moveProject_noop (st : ProjectState Nat) (projectId : List Char) (s : Status)
    (h : st.projects.find? (fun q => q.id == projectId) = none ∨
      ∃ p, st.projects.find? (fun q => q.id == projectId) = some p ∧ p.status = s) :
    moveProject st projectId s = (st, []) := by
  rcases h with h | ⟨p, hf, hs⟩
  · simp [moveProject, h]
  · simp only [moveProject, hf]
    rw [if_neg (by simp [hs])]

theorem moveProject_noop_witness :
    moveProject (⟨[5], []⟩ : ProjectState Nat) ['a'] Status.Active
      = ((⟨[5], []⟩ : ProjectState Nat), []) :=
  moveProject_noop ⟨[5], []⟩ ['a'] Status.Active (Or.inl (by decide))

/-- C10: `addListener` appends to the listener list, leaves the project
collection unchanged and triggers no notification; `addProject` and
`moveProject` leave the registered listener list unchanged, and their
notifications go exactly to the listeners registered before the operation,
in order (for `moveProject`, either nobody is notified or exactly the
registered listeners are). -/
theorem listener_frame {α : Type} (st : ProjectState α) (l : α)
    (newId title description : List Char) (numOfPeople : Int)
    (projectId : List Char) (ns : Status) :
    (addListener st l).1.listeners = st.listeners ++ [l] ∧
    (addListener st l).1.projects = st.projects ∧
    (addListener st l).2 = [] ∧
    (addProject st newId title description numOfPeople).1.listeners = st.listeners ∧
    (addProject st newId title description numOfPeople).2.map Prod.fst = st.listeners ∧
    (moveProject st projectId ns).1.listeners = st.listeners ∧
    ((moveProject st projectId ns).2 = [] ∨
      (moveProject st projectId ns).2.map Prod.fst = st.listeners) := by
  refine ⟨rfl, rfl, rfl, rfl, by simp [addProject, Function.comp_def], ?_, ?_⟩
  · rcases hf : st.projects.find? (fun q => q.id == projectId) with _ | p
    · simp [moveProject, hf]
    · by_cases hs : p.status = ns
      · simp [moveProject, hf, hs]
      · simp [moveProject, hf, hs]
  · rcases hf : st.projects.find? (fun q => q.id == projectId) with _ | p
    · simp [moveProject, hf]
    · by_cases hs : p.status = ns
      · simp [moveProject, hf, hs]
      · simp [moveProject, hf, hs, updateListeners, Function.comp_def]

/-- C8: `validate` computes the conjunction of its applicable checks
(required on the trimmed string form; minLength/maxLength only for string
values; min/max only for number values; absent optional fields skipped), and
returns false on {value:"", required}, false on {value:"hi", required,
minLength:5}, true on {value:7, required, min:1, max:10}, and false on
{value:11, required, max:10}. -/
theorem validate_is_conjunction_of_checks (vi : Validatable) :
    validate vi = (requiredCheck vi && minLengthCheck vi && maxLengthCheck vi
      && minCheck vi && maxCheck vi) ∧
    validate ⟨.str [], true, none, none, none, none⟩ = false ∧
    validate ⟨.str ['h', 'i'], true, some 5, none, none, none⟩ = false ∧
    validate ⟨.num 7, true, none, none, some 1, some 10⟩ = true ∧
    validate ⟨.num 11, true, none, none, none, some 10⟩ = false := by
  refine ⟨?_, by decide, by decide, by decide, by decide⟩
  obtain ⟨v, r, mnl, mxl, mn, mx⟩ := vi
  simp only [validate, requiredCheck, minLengthCheck, maxLengthCheck, minCheck, maxCheck]
  cases r <;> cases v <;> cases mnl <;> cases mxl <;> cases mn <;> cases mx <;>
    simp [Bool.and_assoc]

/-- C2: when a project with the given id is in the store and `newStatus`
differs from its status, `moveProject` performs exactly one notification
round, delivering to every listener, in registration order, a snapshot in
which that project's status is `newStatus`, all its other fields are
unchanged, and every other project, the collection's length and its order
are unchanged. -/
theorem moveProject_changed_notifies_once {α : Type} (st : ProjectState α)
    (projectId : List Char) (newStatus : Status) (p : Project)
    (hfind : st.projects.find? (fun q => q.id == projectId) = some p)
    (hne : p.status ≠ newStatus) :
    (moveProject st projectId newStatus).2
      = st.listeners.map
          (fun l => (l, (moveProject st projectId newStatus).1.projects)) ∧
    (moveProject st projectId newStatus).1.projects.length = st.projects.length ∧
    ∃ i, i < st.projects.length ∧ st.projects[i]? = some p ∧
      (moveProject st projectId newStatus).1.projects[i]?
        = some { p with status := newStatus } ∧
      ∀ j, j ≠ i → (moveProject st projectId newStatus).1.projects[j]?
        = st.projects[j]? := by
  obtain ⟨i, hi, hget, hset⟩ := setStatusFirst_of_find? st.projects projectId newStatus p hfind
  have hmv : moveProject st projectId newStatus
      = ({ st with projects := setStatusFirst st.projects projectId newStatus },
          updateListeners
            { st with projects := setStatusFirst st.projects projectId newStatus }) := by
    simp only [moveProject, hfind]
    rw [if_pos hne]
  rw [hmv]
  refine ⟨by simp [updateListeners], by simp [hset], i, hi, hget, ?_, ?_⟩
  · simp only [hset]
    rw [List.getElem?_set_self (by simpa using hi)]
  · intro j hj
    simp only [hset]
    rw [List.getElem?_set_ne (fun h => hj h.symm)]

theorem moveProject_changed_notifies_once_witness :
    (moveProject (⟨[7], [⟨['a'], ['t'], ['d'], 3, Status.Active⟩]⟩ : ProjectState Nat)
        ['a'] Status.Finished).2
      = (⟨[7], [⟨['a'], ['t'], ['d'], 3, Status.Active⟩]⟩ : ProjectState Nat).listeners.map
          (fun l =>
            (l, (moveProject
              (⟨[7], [⟨['a'], ['t'], ['d'], 3, Status.Active⟩]⟩ : ProjectState Nat)
              ['a'] Status.Finished).1.projects)) ∧
    (moveProject (⟨[7], [⟨['a'], ['t'], ['d'], 3, Status.Active⟩]⟩ : ProjectState Nat)
        ['a'] Status.Finished).1.projects.length
      = (⟨[7], [⟨['a'], ['t'], ['d'], 3, Status.Active⟩]⟩ : ProjectState Nat).projects.length ∧
    ∃ i, i < (⟨[7], [⟨['a'], ['t'], ['d'], 3, Status.Active⟩]⟩ :
        ProjectState Nat).projects.length ∧
      (⟨[7], [⟨['a'], ['t'], ['d'], 3, Status.Active⟩]⟩ :
        ProjectState Nat).projects[i]? = some ⟨['a'], ['t'], ['d'], 3, Status.Active⟩ ∧
      (moveProject (⟨[7], [⟨['a'], ['t'], ['d'], 3, Status.Active⟩]⟩ : ProjectState Nat)
          ['a'] Status.Finished).1.projects[i]?
        = some { (⟨['a'], ['t'], ['d'], 3, Status.Active⟩ : Project) with
            status := Status.Finished } ∧
      ∀ j, j ≠ i →
        (moveProject (⟨[7], [⟨['a'], ['t'], ['d'], 3, Status.Active⟩]⟩ : ProjectState Nat)
            ['a'] Status.Finished).1.projects[j]?
          = (⟨[7], [⟨['a'], ['t'], ['d'], 3, Status.Active⟩]⟩ :
              ProjectState Nat).projects[j]? :=
  moveProject_changed_notifies_once
    ⟨[7], [⟨['a'], ['t'], ['d'], 3, Status.Active⟩]⟩ ['a'] Status.Finished
    ⟨['a'], ['t'], ['d'], 3, Status.Active⟩ (by decide) (by decide)

/-- C4: in the notification loop, each listener receives a reference to a
freshly allocated copy of the backing collection, never the backing cell
itself: every delivered reference differs from the store's cell, the copy
holds the backing collection's contents, and overwriting a delivered cell
with anything leaves the backing collection — and therefore every snapshot a
subsequent notification delivers — unchanged. -/
theorem snapshot_isolation {α : Type} (m : Mem) (projectsRef : Nat) (ls : List α)
    (href : projectsRef < m.cells.length) :
    ∀ ev ∈ (notifyLoop m projectsRef ls).2,
      ev.2 ≠ projectsRef ∧
      (notifyLoop m projectsRef ls).1.read ev.2 = m.read projectsRef ∧
      ∀ v : List Project,
        ((notifyLoop m projectsRef ls).1.write ev.2 v).read projectsRef
          = m.read projectsRef ∧
        ∀ ls' : List α,
          ∀ ev' ∈ (notifyLoop ((notifyLoop m projectsRef ls).1.write ev.2 v)
              projectsRef ls').2,
            (notifyLoop ((notifyLoop m projectsRef ls).1.write ev.2 v)
                projectsRef ls').1.read ev'.2 = m.read projectsRef := by
  obtain ⟨hlen, hpres, _, hev⟩ := notifyLoop_spec projectsRef ls m href
  intro ev hmem
  obtain ⟨hle, hread⟩ := hev ev hmem
  have hne : ev.2 ≠ projectsRef := by omega
  have hbase : ∀ v : List Project,
      ((notifyLoop m projectsRef ls).1.write ev.2 v).read projectsRef
        = m.read projectsRef := by
    intro v
    rw [Mem.read_write_ne _ _ _ _ (Ne.symm hne)]
    exact hpres projectsRef href
  refine ⟨hne, hread, fun v => ⟨hbase v, fun ls' ev' hmem' => ?_⟩⟩
  have hwlen : projectsRef
      < ((notifyLoop m projectsRef ls).1.write ev.2 v).cells.length := by
    have : ((notifyLoop m projectsRef ls).1.write ev.2 v).cells.length
        = (notifyLoop m projectsRef ls).1.cells.length := by
      simp [Mem.write]
    omega
  obtain ⟨_, _, _, hev'⟩ := notifyLoop_spec projectsRef ls'
    ((notifyLoop m projectsRef ls).1.write ev.2 v) hwlen
  obtain ⟨_, hread'⟩ := hev' ev' hmem'
  rw [hread']
  exact hbase v

theorem snapshot_isolation_witness :
    0 < (Mem.mk [[⟨['a'], ['t'], ['d'], 1, Status.Active⟩]]).cells.length ∧
    ∀ ev ∈ (notifyLoop (Mem.mk [[⟨['a'], ['t'], ['d'], 1, Status.Active⟩]]) 0
        [(3 : Nat)]).2,
      ev.2 ≠ 0 ∧
      (notifyLoop (Mem.mk [[⟨['a'], ['t'], ['d'], 1, Status.Active⟩]]) 0
          [(3 : Nat)]).1.read ev.2
        = (Mem.mk [[⟨['a'], ['t'], ['d'], 1, Status.Active⟩]]).read 0 ∧
      ∀ v : List Project,
        ((notifyLoop (Mem.mk [[⟨['a'], ['t'], ['d'], 1, Status.Active⟩]]) 0
            [(3 : Nat)]).1.write ev.2 v).read 0
          = (Mem.mk [[⟨['a'], ['t'], ['d'], 1, Status.Active⟩]]).read 0 ∧
        ∀ ls' : List Nat,
          ∀ ev' ∈ (notifyLoop ((notifyLoop
              (Mem.mk [[⟨['a'], ['t'], ['d'], 1, Status.Active⟩]]) 0
              [(3 : Nat)]).1.write ev.2 v) 0 ls').2,
            (notifyLoop ((notifyLoop
                (Mem.mk [[⟨['a'], ['t'], ['d'], 1, Status.Active⟩]]) 0
                [(3 : Nat)]).1.write ev.2 v) 0 ls').1.read ev'.2
              = (Mem.mk [[⟨['a'], ['t'], ['d'], 1, Status.Active⟩]]).read 0 :=
  ⟨by decide,
    snapshot_isolation (Mem.mk [[⟨['a'], ['t'], ['d'], 1, Status.Active⟩]]) 0
      [(3 : Nat)] (by decide)⟩

/-- C5 counterexample: the store does not enforce id uniqueness — when the
external random source yields the token "0.5" in two successive `addProject`
calls, the two stored projects share an id. -/
theorem duplicate_tokens_give_duplicate_ids :
    ¬ (((addProject
          (addProject (⟨[], []⟩ : ProjectState Nat) ['0', '.', '5'] ['t'] ['d'] 3).1
          ['0', '.', '5'] ['u'] ['e'] 4).1.projects.map Project.id).Nodup) := by
  decide

/-- C5 (amended): across any sequence of `addProject` calls, the stored
projects' ids are exactly the initial ids followed by the generated tokens
in call order; in particular, if those are pairwise distinct (as the spec
assumes of the random source), no two projects share an id. -/
theorem addAll_ids_nodup {α : Type} (st : ProjectState α)
    (cs : List (List Char × List Char × List Char × Int))
    (h : (st.projects.map Project.id ++ cs.map (fun c => c.1)).Nodup) :
    ((addAll st cs).projects.map Project.id).Nodup := by
  rw [addAll_ids]
  exact h

theorem addAll_ids_nodup_witness :
    (((⟨[], []⟩ : ProjectState Nat).projects.map Project.id
        ++ ([(['a'], ['t'], ['d'], 3), (['b'], ['t'], ['d'], 3)].map
              (fun c => c.1))).Nodup) ∧
    ((addAll (⟨[], []⟩ : ProjectState Nat)
        [(['a'], ['t'], ['d'], 3), (['b'], ['t'], ['d'], 3)]).projects.map
          Project.id).Nodup :=
  ⟨by decide, addAll_ids_nodup ⟨[], []⟩
    [(['a'], ['t'], ['d'], 3), (['b'], ['t'], ['d'], 3)] (by decide)⟩

/-- C6 (code defect): on a submission with an empty title, validation fails
and the alert fires, yet `submitHandler` still calls `addProject` —
`gatherUserInputVaues` returns the tuple even on the invalid branch (no
early return), and the tuple is always an array. -/
theorem submitHandler_invalid_still_calls_addProject :
    (submitHandler [] ['v', 'a', 'l', 'i', 'd', 'd'] ['3']).alerted = true ∧
    (submitHandler [] ['v', 'a', 'l', 'i', 'd', 'd'] ['3']).addCalled
      = some ([], ['v', 'a', 'l', 'i', 'd', 'd'], some 3) := by
  decide

/-- C7 (code defect): the submission ("T", "someth", "11") raises no alert —
the people value is handed to the validator as a string, so the min/max
checks are skipped — and `addProject` is called with people = 11, which is
outside [1, 10]. -/
theorem submitHandler_people_out_of_range :
    (submitHandler ['T'] ['s', 'o', 'm', 'e', 't', 'h'] ['1', '1']).alerted = false ∧
    (submitHandler ['T'] ['s', 'o', 'm', 'e', 't', 'h'] ['1', '1']).addCalled
      = some (['T'], ['s', 'o', 'm', 'e', 't', 'h'], some 11) ∧
    ¬ ((1 : Int) ≤ 11 ∧ (11 : Int) ≤ 10) := by
  decide

/-- C9: the required check always passes for a numeric value (the decimal
string form of a number never trims to the empty string), so a required
numeric value validates whenever no min/max bound excludes it; and any value
validates when `required` is false and no applicable optional bound is set. -/
theorem validate_vacuous_passes (n : Int) (mnl mxl mn mx : Option Int)
    (v : JsValue) (mnl2 mxl2 mn2 mx2 : Option Int)
    (hmn : ∀ m, mn = some m → m ≤ n)
    (hmx : ∀ m, mx = some m → n ≤ m)
    (hstr : ∀ s, v = JsValue.str s → mnl2 = none ∧ mxl2 = none)
    (hnum : ∀ k, v = JsValue.num k → mn2 = none ∧ mx2 = none) :
    validate ⟨.num n, true, mnl, mxl, mn, mx⟩ = true ∧
    validate ⟨v, false, mnl2, mxl2, mn2, mx2⟩ = true := by
  constructor
  · have hreq := trim_numToString_length_ne_zero n
    cases mnl <;> cases mxl <;> cases mn <;> cases mx <;>
      simp_all [validate, JsValue.toStr]
  · cases v with
    | str s =>
      obtain ⟨h1, h2⟩ := hstr s rfl
      subst h1; subst h2
      cases mn2 <;> cases mx2 <;> simp [validate]
    | num k =>
      obtain ⟨h1, h2⟩ := hnum k rfl
      subst h1; subst h2
      cases mnl2 <;> cases mxl2 <;> simp [validate]

theorem validate_vacuous_passes_witness :
    validate ⟨.num 7, true, none, none, some 1, some 10⟩ = true ∧
    validate ⟨.str ['a'], false, none, none, some 3, none⟩ = true :=
  validate_vacuous_passes 7 none none (some 1) (some 10)
    (JsValue.str ['a']) none none (some 3) none
    (fun m h => by obtain rfl := Option.some.inj h; decide)
    (fun m h => by obtain rfl := Option.some.inj h; decide)
    (fun _ _ => ⟨rfl, rfl⟩)
    (fun k h => nomatch h)

end DragDrop
